import Mathlib

/-!
# Shallow embedding of the rustic backup-engine core

This file embeds, in Lean 4, the parts of the `rustic_core` crate that the
verified properties below are about:

* `Id::from_hex` (src/crates/rustic_core/src/id.rs), including the behaviour
  of the `hex` crate's `decode_to_slice`,
* `ConfigFile::zstd` (src/crates/rustic_core/src/repofile/configfile.rs),
* `LocalBackend::path`, `LocalBackend::create`, `LocalBackend::read_partial`
  and `LocalBackend::write_bytes` (src/crates/rustic_core/src/backend/local.rs),
* the parent-error filtering stage of `Archiver::archive`
  (src/crates/rustic_core/src/archiver.rs),
* `SnapshotFile` equality/ordering, `must_delete`/`must_keep` and
  `StringList::add`/`add_list`/`add_all`
  (src/crates/rustic_core/src/repofile/snapshotfile.rs),
* `IndexPack::blob_type` (src/crates/rustic_core/src/repofile/indexfile.rs).

Machine integers (`u8`, `u32`, `i32`, `u64`) are modelled as `Nat`/`Int`;
none of the embedded functions can overflow on the inputs considered.
Strings are modelled as `List Char` or `String` as convenient; byte buffers
as `List Nat`.
-/

namespace Rustic

/-! ## Bytes and hex encoding/decoding

`Id` in id.rs is `struct Id([u8; 32])`; we model it as a list of bytes.
The hex functions follow the `hex` crate (v0.4): `val`, `decode_to_slice`
and `encode_to_slice`. -/

/-- An `Id` is a 32-byte digest; modelled as its byte list. -/
abbrev Id := List Nat

/-- Errors of the hex crate's `FromHexError`. -/
inductive FromHexError where
  | invalidHexCharacter (c : Char)
  | oddLength
  | invalidStringLength
deriving DecidableEq, Repr

/-- The hex crate's `val(c, idx)`: value of one hex digit, accepting
`A`-`F`, `a`-`f` and `0`-`9` (in that match order). -/
def hexVal (c : Char) : Except FromHexError Nat :=
  if 'A' ≤ c ∧ c ≤ 'F' then .ok (c.toNat - 'A'.toNat + 10)
  else if 'a' ≤ c ∧ c ≤ 'f' then .ok (c.toNat - 'a'.toNat + 10)
  else if '0' ≤ c ∧ c ≤ '9' then .ok (c.toNat - '0'.toNat)
  else .error (.invalidHexCharacter c)

/-- A hexadecimal character: one `hexVal` accepts. -/
def isHexChar (c : Char) : Bool :=
  if 'A' ≤ c ∧ c ≤ 'F' then true
  else if 'a' ≤ c ∧ c ≤ 'f' then true
  else if '0' ≤ c ∧ c ≤ '9' then true
  else false

/-- The decoding loop of `hex::decode_to_slice`: two characters per output
byte, `val(hi) << 4 | val(lo)`; the matches spell out the `?` operator's
error propagation. -/
def decodePairs : List Char → Except FromHexError (List Nat)
  | [] => .ok []
  | [_] => .error .oddLength
  | chi :: clo :: rest =>
      match hexVal chi with
      | .error e => .error e
      | .ok hi =>
        match hexVal clo with
        | .error e => .error e
        | .ok lo =>
          match decodePairs rest with
          | .error e => .error e
          | .ok bs => .ok ((hi * 16 + lo) :: bs)

/-- The `hex::decode_to_slice(data, out)` for an output slice of `outLen` bytes:
odd input length and mismatched length are rejected before any digit is
decoded. -/
def decodeToSlice (data : List Char) (outLen : Nat) : Except FromHexError (List Nat) :=
  if data.length % 2 ≠ 0 then .error .oddLength
  else if data.length / 2 ≠ outLen then .error .invalidStringLength
  else decodePairs data

/-- Lower-case hex digit for a value `0 ≤ n < 16` (hex crate's encoding
table `"0123456789abcdef"`). -/
def hexDigitChar (n : Nat) : Char :=
  if n < 10 then Char.ofNat ('0'.toNat + n) else Char.ofNat ('a'.toNat + (n - 10))

/-- The `hex::encode` of a single byte: high nibble then low nibble. -/
def hexEncodeByte (b : Nat) : List Char :=
  [hexDigitChar (b / 16 % 16), hexDigitChar (b % 16)]

/-- The 16 lower-case hexadecimal digits, in value order. -/
def lowerHexDigits : List Char :=
  (List.range 16).map hexDigitChar

namespace Id

/-- The `Id::from_hex` (id.rs): `hex::decode_to_slice(s, &mut id.0)` into a
32-byte array; any failure is returned as an id parse error. -/
def from_hex (s : List Char) : Except FromHexError Id :=
  decodeToSlice s 32

/-- The `Id::to_hex` (id.rs): `hex::encode_to_slice` of the 32 bytes,
lower-case. -/
def to_hex (id : Id) : List Char :=
  id.flatMap hexEncodeByte

end Id

/-! ## ConfigFile (repofile/configfile.rs) -/

/-- The `ConfigFile` (configfile.rs). `version`, pack sizes and percentages are
`u32`; `compression` is `Option<i32>`. -/
structure ConfigFile where
  version : Nat
  id : Id
  chunker_polynomial : String
  is_hot : Option Bool
  compression : Option Int
  treepack_size : Option Nat
  treepack_growfactor : Option Nat
  treepack_size_limit : Option Nat
  datapack_size : Option Nat
  datapack_growfactor : Option Nat
  datapack_size_limit : Option Nat
  min_packsize_tolerate_percent : Option Nat
  max_packsize_tolerate_percent : Option Nat

/-- The `ConfigFileErrorKind` (error.rs), restricted to the variant `zstd`
uses. -/
inductive ConfigFileErrorKind where
  | configVersionNotSupported
deriving DecidableEq, Repr

/-- The `ConfigFile::zstd` (configfile.rs lines 97-104), with the source's
match-arm order. -/
def ConfigFile.zstd (c : ConfigFile) : Except ConfigFileErrorKind (Option Int) :=
  match c.version, c.compression with
  | 1, _ => .ok none
  | 2, some 0 => .ok none
  | 2, none => .ok (some 0)
  | 2, some c => .ok (some c)
  | _, _ => .error .configVersionNotSupported

/-! ## FileType and the local backend (backend/local.rs)

Filesystem paths are modelled as lists of components, each component a
`List Char`. -/

/-- A filesystem path, as a list of components (`PathBuf::join` appends a
component). -/
abbrev FsPath := List (List Char)

/-- The `FileType` (backend/mod.rs; the enum itself is not part of the core
excerpt, its variants are those named throughout the spec: Config, Pack,
Index, Key, Snapshot). -/
inductive FileType where
  | config
  | pack
  | index
  | key
  | snapshot
deriving DecidableEq, Repr

/-- Modelled from the spec: `FileType`'s directory name (the `Display`
impl in backend/mod.rs is not part of the excerpt). Spec §6 gives the
layout `<root>/config`, `<root>/data/<hh>/<id>`, `<root>/index/<id>`,
`<root>/keys/<id>`, `<root>/snapshots/<id>`, matching the directory
tree in the doc comment of local.rs. -/
def FileType.dirname : FileType → List Char
  | .config => ['c', 'o', 'n', 'f', 'i', 'g']
  | .pack => ['d', 'a', 't', 'a']
  | .index => ['i', 'n', 'd', 'e', 'x']
  | .key => ['k', 'e', 'y', 's']
  | .snapshot => ['s', 'n', 'a', 'p', 's', 'h', 'o', 't', 's']

/-- Modelled from the spec: `ALL_FILE_TYPES` (backend/mod.rs, not part of
the excerpt) — the file types whose directories exist in the §6 layout;
`config` is a plain file, not a directory. -/
def ALL_FILE_TYPES : List FileType := [.key, .snapshot, .index, .pack]

namespace LocalBackend

/-- The `LocalBackend::path` (local.rs lines 104-111): `config` maps to
`<root>/config`, packs to `<root>/data/<first two hex chars>/<hex>`, and
every other type to `<root>/<tpe.to_string()>/<hex>`. -/
def path (root : FsPath) (tpe : FileType) (id : Id) : FsPath :=
  let hex_id := Id.to_hex id
  match tpe with
  | .config => root ++ [FileType.dirname .config]
  | .pack => root ++ [FileType.dirname .pack, hex_id.take 2, hex_id]
  | _ => root ++ [tpe.dirname, hex_id]

/-- The `LocalBackend::create` (local.rs lines 335-347), as the list of
directories it creates: one per `ALL_FILE_TYPES` entry, then
`data/<hex::encode([i])>` for every byte `i` in `0..=255`. -/
def create_dirs (root : FsPath) : List FsPath :=
  ALL_FILE_TYPES.map (fun tpe => root ++ [tpe.dirname])
    ++ (List.range 256).map (fun i => root ++ [FileType.dirname .pack, hexEncodeByte i])

/-- The `LocalErrorKind` (error.rs), restricted to the variants the embedded
backend operations use. -/
inductive LocalErrorKind where
  | openingFileFailed
  | readingExactLengthOfFileFailed
deriving DecidableEq, Repr

/-- The `File::read_exact` on a file with contents `data` and cursor `pos`:
succeeds iff `n` bytes are available, never returns a short read. -/
def read_exact (data : List Nat) (pos n : Nat) : Except LocalErrorKind (List Nat) :=
  if pos + n ≤ data.length then .ok ((data.drop pos).take n)
  else .error .readingExactLengthOfFileFailed

/-- The `LocalBackend::read_partial` (local.rs lines 310-331) on the stored
file's contents (`none` when no file exists at the computed path):
`File::open`, `seek(SeekFrom::Start(offset))` (always succeeds, even past
the end), then `read_exact` into a buffer of `length` zeros. -/
def read_partial (file : Option (List Nat)) (offset length : Nat) :
    Except LocalErrorKind (List Nat) :=
  match file with
  | none => .error .openingFileFailed
  | some data => read_exact data offset length

end LocalBackend

/-! ## Crash model for `LocalBackend::write_bytes`

`write_bytes` (local.rs lines 349-379) is a straight-line sequence of
filesystem operations; we record that sequence as a trace and give each
operation a semantics on a flat filesystem state.  A crash at any point
leaves exactly the state produced by a prefix of the trace. -/

/-- One filesystem operation performed by the local backend. -/
inductive FsOp where
  /-- The `OpenOptions::new().create(true).write(true).open(p)`: creates an
  empty file when absent, leaves contents alone when present (no
  `truncate`). -/
  | openCreateWrite (p : FsPath)
  /-- The `File::set_len(n)`: truncate or zero-extend to `n` bytes. -/
  | setLen (p : FsPath) (n : Nat)
  /-- The `File::write_all(data)` at cursor position 0 of a freshly opened
  file. -/
  | writeAll (p : FsPath) (data : List Nat)
  /-- The `File::sync_all()` (fsync): no state change. -/
  | syncAll (p : FsPath)
  /-- The `fs::rename(src, dst)` — never emitted by `write_bytes`; present so
  that "write-then-rename" is expressible. -/
  | rename (src dst : FsPath)
deriving DecidableEq

/-- A flat filesystem: contents of each path, `none` when absent. -/
def FsState := FsPath → Option (List Nat)

/-- Update one path of a filesystem state. -/
def FsState.set (st : FsState) (p : FsPath) (v : Option (List Nat)) : FsState :=
  fun q => if q = p then v else st q

/-- Semantics of one `FsOp` on a filesystem state. -/
def FsOp.apply (st : FsState) : FsOp → FsState
  | .openCreateWrite p =>
      match st p with
      | none => st.set p (some [])
      | some _ => st
  | .setLen p n =>
      match st p with
      | none => st
      | some data => st.set p (some (data.take n ++ List.replicate (n - data.length) 0))
  | .writeAll p data =>
      match st p with
      | none => st
      | some old => st.set p (some (data ++ old.drop data.length))
  | .syncAll _ => st
  | .rename src dst =>
      match st src with
      | none => st
      | some data => (st.set src none).set dst (some data)

/-- Run a trace of filesystem operations. -/
def FsOp.applyAll (st : FsState) (ops : List FsOp) : FsState :=
  ops.foldl FsOp.apply st

/-- The `LocalBackend::write_bytes` (local.rs lines 349-379) as its trace of
filesystem operations on the target path `self.path(tpe, id)`: open with
`create(true).write(true)`, `set_len(buf.len())`, `write_all(&buf)`,
`sync_all()`.  There is no temporary file and no rename. -/
def LocalBackend.write_bytes_trace (root : FsPath) (tpe : FileType) (id : Id)
    (buf : List Nat) : List FsOp :=
  let filename := LocalBackend.path root tpe id
  [.openCreateWrite filename, .setLen filename buf.length,
    .writeAll filename buf, .syncAll filename]

/-- A trace is crash-atomic for target path `p`, old state `st` and new
contents `buf` when every crash point (every prefix of the trace) shows at
`p` either the original contents or exactly `buf` — never a partially
written file. -/
def crashAtomic (st : FsState) (ops : List FsOp) (p : FsPath) (buf : List Nat) : Prop :=
  ∀ k, FsOp.applyAll st (ops.take k) p = st p ∨ FsOp.applyAll st (ops.take k) p = some buf

/-! ## The parent-error filtering stage of `Archiver::archive`
(archiver.rs lines 116-122)

```text
iter.filter_map(|item| match self.parent.process(item) {
    Ok(item) => Some(item),
    Err(err) => { warn!("ignoring error reading parent snapshot: {err:?}"); None }
})
```

`Parent::process` is abstracted as a function from pipeline items to
`Except`; the stage itself is embedded exactly. -/

/-- The `filter_map` stage of `Archiver::archive` that applies
`self.parent.process` to every item: `Ok` results are passed downstream,
`Err` results are logged and mapped to `None` (dropped). -/
def Archiver.parentStage {α β ε : Type} (process : α → Except ε β) (items : List α) :
    List β :=
  items.filterMap (fun item =>
    match process item with
    | .ok item => some item
    | .error _ => none)

/-! ## SnapshotFile (repofile/snapshotfile.rs)

`DateTime<Local>` is modelled as an integer timestamp (chronological
comparison); the `f64` durations of `SnapshotSummary` are likewise
abstracted to integers — no embedded function computes with them. -/

/-- A point in time (`DateTime<Local>`). -/
abbrev DateTime := Int

/-- The `StringList` (snapshotfile.rs line 620): a newtype around
`Vec<String>`; modelled as the list itself. -/
abbrev StringList := List String

namespace StringList

/-- The `StringList::contains` (snapshotfile.rs): `self.0.iter().any(|m| m == s)`. -/
def contains (l : StringList) (s : String) : Bool :=
  l.any (fun m => m == s)

/-- The `StringList::add` (snapshotfile.rs lines 656-660): push `s` only when
not already contained. -/
def add (l : StringList) (s : String) : StringList :=
  if l.contains s then l else l ++ [s]

/-- The `StringList::add_list` (snapshotfile.rs lines 663-667): `add` every
string of the other list, in order. -/
def add_list (l : StringList) (sl : StringList) : StringList :=
  sl.foldl add l

/-- The `StringList::add_all` (snapshotfile.rs lines 670-674): `add_list`
every given list, in order. -/
def add_all (l : StringList) (string_lists : List StringList) : StringList :=
  string_lists.foldl add_list l

end StringList

/-- The `DeleteOption` (snapshotfile.rs lines 153-158). -/
inductive DeleteOption where
  | notSet
  | never
  | after (time : DateTime)
deriving DecidableEq, Repr

/-- The `SnapshotSummary` (snapshotfile.rs lines 106-133); `u64` counters as
`Nat`, `f64` durations abstracted to `Int`. -/
structure SnapshotSummary where
  files_new : Nat
  files_changed : Nat
  files_unmodified : Nat
  dirs_new : Nat
  dirs_changed : Nat
  dirs_unmodified : Nat
  data_blobs : Nat
  tree_blobs : Nat
  data_added : Nat
  data_added_packed : Nat
  data_added_files : Nat
  data_added_files_packed : Nat
  data_added_trees : Nat
  data_added_trees_packed : Nat
  total_files_processed : Nat
  total_dirs_processed : Nat
  total_bytes_processed : Nat
  total_dirsize_processed : Nat
  total_duration : Int
  command : String
  backup_start : DateTime
  backup_end : DateTime
  backup_duration : Int

/-- The `SnapshotFile` (snapshotfile.rs lines 173-205). -/
structure SnapshotFile where
  time : DateTime
  program_version : String
  parent : Option Id
  tree : Id
  label : String
  paths : StringList
  hostname : String
  username : String
  uid : Nat
  gid : Nat
  tags : StringList
  original : Option Id
  delete : DeleteOption
  summary : Option SnapshotSummary
  description : Option String
  id : Id

namespace SnapshotFile

/-- The `impl PartialEq for SnapshotFile` (snapshotfile.rs lines 504-508):
`self.time.eq(&other.time)`. -/
def beq (a b : SnapshotFile) : Bool :=
  a.time == b.time

/-- The `impl Ord for SnapshotFile` (snapshotfile.rs lines 516-520):
`self.time.cmp(&other.time)`. -/
def cmp (a b : SnapshotFile) : Ordering :=
  compare a.time b.time

/-- The `SnapshotFile::must_delete` (snapshotfile.rs lines 453-455):
`matches!(self.delete, DeleteOption::After(time) if time < now)`. -/
def must_delete (s : SnapshotFile) (now : DateTime) : Bool :=
  match s.delete with
  | .after time => time < now
  | _ => false

/-- The `SnapshotFile::must_keep` (snapshotfile.rs lines 459-465): `Never`
keeps, `After(time)` keeps iff `time >= now`, everything else does not. -/
def must_keep (s : SnapshotFile) (now : DateTime) : Bool :=
  match s.delete with
  | .never => true
  | .after time => now ≤ time
  | _ => false

end SnapshotFile

/-! ## IndexPack (repofile/indexfile.rs) -/

/-- The `BlobType` (blob.rs): closed set `{Tree, Data}`. -/
inductive BlobType where
  | tree
  | data
deriving DecidableEq, Repr

/-- The `IndexBlob` (indexfile.rs lines 96-109); `u32` fields as `Nat`,
`NonZeroU32` as `Nat` (positivity is irrelevant to `blob_type`). -/
structure IndexBlob where
  id : Id
  tpe : BlobType
  offset : Nat
  length : Nat
  uncompressed_length : Option Nat

/-- The `IndexPack` (indexfile.rs lines 43-54). -/
structure IndexPack where
  id : Id
  blobs : List IndexBlob
  time : Option DateTime
  size : Option Nat

/-- The `IndexPack::blob_type` (indexfile.rs lines 84-91): `Data` when the
blob list is empty, otherwise `self.blobs[0].tpe`. -/
def IndexPack.blob_type (p : IndexPack) : BlobType :=
  match p.blobs with
  | [] => .data
  | b :: _ => b.tpe

/-! ## Helper lemmas -/

@[simp]
theorem except_isOk_ok {ε α : Type} (a : α) : (Except.ok a : Except ε α).isOk = true := rfl

@[simp]
theorem except_isOk_error {ε α : Type} (e : ε) :
    (Except.error e : Except ε α).isOk = false := rfl

instance {ε α : Type} [DecidableEq ε] [DecidableEq α] : DecidableEq (Except ε α) := by
  intro a b
  cases a <;> cases b
  case error.error e f => exact decidable_of_iff (e = f) (by simp)
  case error.ok e x => exact isFalse (by intro h; cases h)
  case ok.error x e => exact isFalse (by intro h; cases h)
  case ok.ok x y => exact decidable_of_iff (x = y) (by simp)

/-- The `hexVal` succeeds exactly on hexadecimal characters. -/
theorem hexVal_isOk (c : Char) : (hexVal c).isOk = isHexChar c := by
  unfold hexVal isHexChar
  split_ifs <;> rfl

/-- The decoding loop succeeds exactly on even-length all-hex input. -/
theorem decodePairs_isOk :
    ∀ l : List Char,
      (decodePairs l).isOk = true ↔ (l.length % 2 = 0 ∧ ∀ c ∈ l, isHexChar c = true)
  | [] => by simp [decodePairs]
  | [c] => by simp [decodePairs]
  | chi :: clo :: rest => by
    have ih := decodePairs_isOk rest
    have hi := hexVal_isOk chi
    have lo := hexVal_isOk clo
    cases h1 : hexVal chi with
    | error e =>
      rw [h1] at hi
      simp only [decodePairs, h1]
      simp_all [Nat.add_mod_right]
    | ok vhi =>
      rw [h1] at hi
      cases h2 : hexVal clo with
      | error e =>
        rw [h2] at lo
        simp only [decodePairs, h1, h2]
        simp_all [Nat.add_mod_right]
      | ok vlo =>
        rw [h2] at lo
        cases h3 : decodePairs rest with
        | error e =>
          rw [h3] at ih
          simp only [decodePairs, h1, h2, h3]
          simp_all
          intro hl
          exact ih (by omega)
        | ok bs =>
          rw [h3] at ih
          simp only [decodePairs, h1, h2, h3]
          simp_all
          omega

/-- On success the decoding loop yields one byte per character pair. -/
theorem decodePairs_length :
    ∀ (l : List Char) (bs : List Nat), decodePairs l = .ok bs → bs.length = l.length / 2
  | [], bs => by intro h; simp [decodePairs] at h; simp [← h]
  | [c], bs => by intro h; simp [decodePairs] at h
  | chi :: clo :: rest, bs => by
    intro h
    cases h1 : hexVal chi with
    | error e => simp [decodePairs, h1] at h
    | ok vhi =>
      cases h2 : hexVal clo with
      | error e => simp [decodePairs, h1, h2] at h
      | ok vlo =>
        cases h3 : decodePairs rest with
        | error e => simp [decodePairs, h1, h2, h3] at h
        | ok tl =>
          have ih := decodePairs_length rest tl h3
          simp [decodePairs, h1, h2, h3] at h
          rw [← h]
          simp [ih]
          omega

/-! ## C3 -/

/-- C3: `ConfigFile::zstd` returns `Ok(None)` for version 1 (any
compression) and for version 2 with compression `Some(0)`; `Ok(Some(0))`
for version 2 with compression unset; `Ok(Some(c))` for version 2 with
compression `Some(c)`, `c ≠ 0`; and an unsupported-version error for
every other version. -/
theorem ConfigFile.zstd_cases :
    (∀ c : ConfigFile, c.version = 1 → c.zstd = .ok none) ∧
    (∀ c : ConfigFile, c.version = 2 → c.compression = some 0 → c.zstd = .ok none) ∧
    (∀ c : ConfigFile, c.version = 2 → c.compression = none → c.zstd = .ok (some 0)) ∧
    (∀ (c : ConfigFile) (z : Int), c.version = 2 → c.compression = some z → z ≠ 0 →
      c.zstd = .ok (some z)) ∧
    (∀ c : ConfigFile, c.version ≠ 1 → c.version ≠ 2 →
      c.zstd = .error .configVersionNotSupported) := by
  refine ⟨?_, ?_, ?_, ?_, ?_⟩
  · intro c h; simp [ConfigFile.zstd, h]
  · intro c h1 h2; simp [ConfigFile.zstd, h1, h2]
  · intro c h1 h2; simp [ConfigFile.zstd, h1, h2]
  · intro c z h1 h2 hz
    simp only [ConfigFile.zstd, h1, h2]
  · intro c h1 h2
    simp only [ConfigFile.zstd]
    split <;> simp_all

/-- Witness for C3: the five cases evaluated at concrete config files. -/
theorem ConfigFile.zstd_cases_witness :
    ConfigFile.zstd ⟨1, default, "", none, some 5, none, none, none, none, none, none,
        none, none⟩ = .ok none ∧
    ConfigFile.zstd ⟨2, default, "", none, some 0, none, none, none, none, none, none,
        none, none⟩ = .ok none ∧
    ConfigFile.zstd ⟨2, default, "", none, none, none, none, none, none, none, none,
        none, none⟩ = .ok (some 0) ∧
    ConfigFile.zstd ⟨2, default, "", none, some 7, none, none, none, none, none, none,
        none, none⟩ = .ok (some 7) ∧
    ConfigFile.zstd ⟨3, default, "", none, some 5, none, none, none, none, none, none,
        none, none⟩ = .error .configVersionNotSupported :=
  ⟨ConfigFile.zstd_cases.1 _ rfl,
   ConfigFile.zstd_cases.2.1 _ rfl rfl,
   ConfigFile.zstd_cases.2.2.1 _ rfl rfl,
   ConfigFile.zstd_cases.2.2.2.1 _ 7 rfl rfl (by decide),
   ConfigFile.zstd_cases.2.2.2.2 _ (by decide) (by decide)⟩

/-! ## C4 -/

/-- C4: `Id::from_hex(s)` succeeds exactly when `s` is 64 hexadecimal
characters, and then yields the 32-byte digest they encode; every other
string fails with an id parse error. -/
theorem Id.from_hex_ok_iff :
    (∀ s : List Char,
      (Id.from_hex s).isOk = true ↔ (s.length = 64 ∧ ∀ c ∈ s, isHexChar c = true)) ∧
    (∀ (s : List Char) (bs : Id), Id.from_hex s = .ok bs → bs.length = 32) := by
  constructor
  · intro s
    unfold Id.from_hex decodeToSlice
    split_ifs with h1 h2
    · constructor
      · intro h; simp at h
      · intro ⟨hl, _⟩; omega
    · constructor
      · intro h; simp at h
      · intro ⟨hl, _⟩; omega
    · rw [decodePairs_isOk s]
      constructor
      · intro ⟨he, hc⟩; exact ⟨by omega, hc⟩
      · intro ⟨hl, hc⟩; exact ⟨by omega, hc⟩
  · intro s bs h
    unfold Id.from_hex decodeToSlice at h
    split_ifs at h with h1 h2
    have := decodePairs_length s bs h
    omega

/-- Witness for C4 at the all-zero 64-character hex string. -/
theorem Id.from_hex_ok_iff_witness :
    (Id.from_hex (List.replicate 64 '0')).isOk = true ∧
    (List.replicate 32 (0 : Nat) : Id).length = 32 :=
  ⟨(Id.from_hex_ok_iff.1 _).mpr ⟨by decide, by decide⟩,
   Id.from_hex_ok_iff.2 (List.replicate 64 '0') _ (by decide)⟩

/-! ## C5 -/

/-- Value of a lower-case hex digit: its index in the digit table. -/
def lowerHexVal (c : Char) : Nat := lowerHexDigits.indexOf c

theorem hexDigitChar_mem : ∀ n < 16, hexDigitChar n ∈ lowerHexDigits := by decide

theorem lowerHexVal_roundtrip :
    ∀ c ∈ lowerHexDigits, hexDigitChar (lowerHexVal c) = c ∧ lowerHexVal c < 16 := by
  intro c hc
  have hlt : lowerHexDigits.indexOf c < lowerHexDigits.length :=
    List.indexOf_lt_length.mpr hc
  have hlen : lowerHexDigits.length = 16 := by simp [lowerHexDigits]
  have hgeti : ∀ (i : Nat) (h : i < lowerHexDigits.length),
      lowerHexDigits.get ⟨i, h⟩ = hexDigitChar i := by
    intro i h
    simp [lowerHexDigits]
  refine ⟨?_, by unfold lowerHexVal; omega⟩
  unfold lowerHexVal
  calc hexDigitChar (lowerHexDigits.indexOf c)
      = lowerHexDigits.get ⟨lowerHexDigits.indexOf c, hlt⟩ := (hgeti _ hlt).symm
    _ = c := List.indexOf_get hlt

theorem hexEncodeByte_digits (v1 v2 : Nat) (h1 : v1 < 16) (h2 : v2 < 16) :
    hexEncodeByte (16 * v1 + v2) = [hexDigitChar v1, hexDigitChar v2] := by
  unfold hexEncodeByte
  have e1 : (16 * v1 + v2) / 16 % 16 = v1 := by omega
  have e2 : (16 * v1 + v2) % 16 = v2 := by omega
  rw [e1, e2]

/-- C5: the local backend stores `(Config, _)` at `<root>/config`,
`(Pack, H)` at `<root>/data/h[0:2]/h` with `h` the lower-case hex of `H`,
and every other file type at `<root>/<type dir>/h`; and `create`
precreates all 256 two-hex-character subdirectories of `<root>/data`. -/
theorem LocalBackend.path_layout :
    (∀ (root : FsPath) (id : Id),
      LocalBackend.path root .config id = root ++ [['c', 'o', 'n', 'f', 'i', 'g']]) ∧
    (∀ (root : FsPath) (id : Id),
      LocalBackend.path root .pack id =
        root ++ [['d', 'a', 't', 'a'], (Id.to_hex id).take 2, Id.to_hex id]) ∧
    (∀ (root : FsPath) (id : Id) (tpe : FileType), tpe ≠ .config → tpe ≠ .pack →
      LocalBackend.path root tpe id = root ++ [tpe.dirname, Id.to_hex id]) ∧
    (∀ id : Id, (∀ b ∈ id, b < 256) → ∀ c ∈ Id.to_hex id, c ∈ lowerHexDigits) ∧
    (∀ (root : FsPath) (c1 c2 : Char), c1 ∈ lowerHexDigits → c2 ∈ lowerHexDigits →
      (root ++ [['d', 'a', 't', 'a'], [c1, c2]]) ∈ LocalBackend.create_dirs root) := by
  refine ⟨fun root id => rfl, fun root id => rfl, ?_, ?_, ?_⟩
  · intro root id tpe h1 h2
    cases tpe <;> simp_all <;> rfl
  · intro id hid c hc
    rw [Id.to_hex, List.mem_flatMap] at hc
    obtain ⟨b, hb, hcb⟩ := hc
    have hb256 := hid b hb
    unfold hexEncodeByte at hcb
    simp only [List.mem_cons, List.not_mem_nil, or_false] at hcb
    rcases hcb with h | h
    · exact h ▸ hexDigitChar_mem _ (by omega)
    · exact h ▸ hexDigitChar_mem _ (by omega)
  · intro root c1 c2 h1 h2
    obtain ⟨e1, v1lt⟩ := lowerHexVal_roundtrip c1 h1
    obtain ⟨e2, v2lt⟩ := lowerHexVal_roundtrip c2 h2
    unfold LocalBackend.create_dirs
    apply List.mem_append_right
    rw [List.mem_map]
    refine ⟨16 * lowerHexVal c1 + lowerHexVal c2, List.mem_range.mpr (by omega), ?_⟩
    rw [hexEncodeByte_digits _ _ v1lt v2lt, e1, e2]
    rfl

/-- Witness for C5: the hypothesis-bearing conjuncts applied at concrete
inputs (file type `index`, the one-byte id `ff`, the hex pair `0a`). -/
theorem LocalBackend.path_layout_witness :
    LocalBackend.path [] .index ([255] : Id) = [FileType.dirname .index, ['f', 'f']] ∧
    (∀ c ∈ Id.to_hex ([255] : Id), c ∈ lowerHexDigits) ∧
    ([] : FsPath) ++ [['d', 'a', 't', 'a'], ['0', 'a']] ∈ LocalBackend.create_dirs [] :=
  ⟨LocalBackend.path_layout.2.2.1 [] ([255] : Id) .index (by decide) (by decide),
   LocalBackend.path_layout.2.2.2.1 ([255] : Id) (by decide),
   LocalBackend.path_layout.2.2.2.2 [] '0' 'a' (by decide) (by decide)⟩

/-! ## C6 -/

/-- C6: `SnapshotFile` equality and ordering are exactly the equality and
ordering of the `time` field — two snapshots with equal times are equal
and compare `eq` whatever their other fields, and the comparison result
is the comparison of the times. -/
theorem SnapshotFile.eq_ord_time_only :
    (∀ a b : SnapshotFile, SnapshotFile.beq a b = true ↔ a.time = b.time) ∧
    (∀ a b : SnapshotFile, SnapshotFile.cmp a b = compare a.time b.time) ∧
    (∀ a b : SnapshotFile, SnapshotFile.cmp a b = .lt ↔ a.time < b.time) ∧
    (∀ a b : SnapshotFile, SnapshotFile.cmp a b = .eq ↔ a.time = b.time) ∧
    (∀ a b : SnapshotFile, SnapshotFile.cmp a b = .gt ↔ b.time < a.time) := by
  refine ⟨?_, fun a b => rfl, ?_, ?_, ?_⟩
  · intro a b
    simp [SnapshotFile.beq]
  · intro a b
    exact compare_lt_iff_lt
  · intro a b
    exact compare_eq_iff_eq
  · intro a b
    exact compare_gt_iff_gt

/-! ## C7 -/

/-- C7: for a pack whose blobs all share one `BlobType`, `blob_type()`
returns that type; for an empty blob list it returns `Data`. -/
theorem IndexPack.blob_type_spec :
    (∀ (p : IndexPack) (t : BlobType), p.blobs ≠ [] → (∀ b ∈ p.blobs, b.tpe = t) →
      p.blob_type = t) ∧
    (∀ p : IndexPack, p.blobs = [] → p.blob_type = .data) := by
  constructor
  · intro p t hne hall
    unfold IndexPack.blob_type
    cases h : p.blobs with
    | nil => exact absurd h hne
    | cons b rest => exact hall b (h ▸ List.mem_cons_self b rest)
  · intro p h
    unfold IndexPack.blob_type
    rw [h]

/-- Witness for C7: a one-blob tree pack and an empty pack. -/
theorem IndexPack.blob_type_spec_witness :
    IndexPack.blob_type ⟨[], [⟨[], .tree, 0, 10, none⟩], none, none⟩ = .tree ∧
    IndexPack.blob_type ⟨[], [], none, none⟩ = .data :=
  ⟨IndexPack.blob_type_spec.1 ⟨[], [⟨[], .tree, 0, 10, none⟩], none, none⟩ .tree
      (by simp) (by intro b hb; simp at hb; rw [hb]),
   IndexPack.blob_type_spec.2 ⟨[], [], none, none⟩ rfl⟩

/-! ## C8 -/

/-- C8: `must_delete` and `must_keep` are never both true: with delete
`NotSet` both are false, with `Never` only `must_keep` holds, and with
`After(t)` exactly one of them holds (`must_delete` iff `t < now`,
`must_keep` iff `t ≥ now`). -/
theorem SnapshotFile.must_delete_keep :
    (∀ (s : SnapshotFile) (now : DateTime),
      ¬(s.must_delete now = true ∧ s.must_keep now = true)) ∧
    (∀ (s : SnapshotFile) (now : DateTime), s.delete = .notSet →
      s.must_delete now = false ∧ s.must_keep now = false) ∧
    (∀ (s : SnapshotFile) (now : DateTime), s.delete = .never →
      s.must_keep now = true ∧ s.must_delete now = false) ∧
    (∀ (s : SnapshotFile) (now : DateTime) (t : DateTime), s.delete = .after t →
      (s.must_delete now = true ↔ t < now) ∧
      (s.must_keep now = true ↔ now ≤ t) ∧
      (s.must_delete now = true ∨ s.must_keep now = true)) := by
  refine ⟨?_, ?_, ?_, ?_⟩
  · intro s now ⟨hd, hk⟩
    cases h : s.delete with
    | notSet => simp [SnapshotFile.must_delete, h] at hd
    | never => simp [SnapshotFile.must_delete, h] at hd
    | after t =>
      simp [SnapshotFile.must_delete, h] at hd
      simp [SnapshotFile.must_keep, h] at hk
      exact absurd (lt_of_lt_of_le hd hk) (lt_irrefl t)
  · intro s now h
    unfold SnapshotFile.must_delete SnapshotFile.must_keep
    rw [h]
    exact ⟨rfl, rfl⟩
  · intro s now h
    unfold SnapshotFile.must_delete SnapshotFile.must_keep
    rw [h]
    exact ⟨rfl, rfl⟩
  · intro s now t h
    refine ⟨by simp [SnapshotFile.must_delete, h], by simp [SnapshotFile.must_keep, h], ?_⟩
    simp only [SnapshotFile.must_delete, SnapshotFile.must_keep, h, decide_eq_true_eq]
    exact lt_or_ge t now

/-- Witness for C8: a concrete snapshot for each `DeleteOption`, with
`now = 5`. -/
theorem SnapshotFile.must_delete_keep_witness :
    (SnapshotFile.must_delete ⟨0, "", none, [], "", [], "", "", 0, 0, [], none,
        .notSet, none, none, []⟩ 5 = false) ∧
    (SnapshotFile.must_keep ⟨0, "", none, [], "", [], "", "", 0, 0, [], none,
        .never, none, none, []⟩ 5 = true) ∧
    (SnapshotFile.must_delete ⟨0, "", none, [], "", [], "", "", 0, 0, [], none,
        .after 3, none, none, []⟩ 5 = true) :=
  ⟨(SnapshotFile.must_delete_keep.2.1 _ 5 rfl).1,
   (SnapshotFile.must_delete_keep.2.2.1 _ 5 rfl).1,
   (SnapshotFile.must_delete_keep.2.2.2 _ 5 3 rfl).1.mpr (by decide)⟩

/-! ## C9 -/

/-- C9: `read_partial` either returns exactly `length` bytes read from
position `offset` of the stored file, or an error; a stored file holding
fewer than `offset + length` bytes always produces an error, never a
short read. -/
theorem LocalBackend.read_partial_spec :
    (∀ (data : List Nat) (offset length : Nat) (r : List Nat),
      LocalBackend.read_partial (some data) offset length = .ok r →
      r.length = length ∧ r = (data.drop offset).take length ∧
        offset + length ≤ data.length) ∧
    (∀ (data : List Nat) (offset length : Nat), data.length < offset + length →
      LocalBackend.read_partial (some data) offset length =
        .error .readingExactLengthOfFileFailed) ∧
    (∀ offset length : Nat,
      LocalBackend.read_partial none offset length = .error .openingFileFailed) := by
  refine ⟨?_, ?_, fun offset length => rfl⟩
  · intro data offset length r h
    rw [show LocalBackend.read_partial (some data) offset length =
        LocalBackend.read_exact data offset length from rfl] at h
    unfold LocalBackend.read_exact at h
    split_ifs at h with hle
    obtain rfl : (data.drop offset).take length = r := by
      simpa using h
    refine ⟨?_, rfl, hle⟩
    simp only [List.length_take, List.length_drop]
    omega
  · intro data offset length hlt
    rw [show LocalBackend.read_partial (some data) offset length =
        LocalBackend.read_exact data offset length from rfl]
    unfold LocalBackend.read_exact
    rw [if_neg (by omega)]

/-- Witness for C9: a four-byte file read at offset 1 for two bytes, and
a one-byte file read past its end. -/
theorem LocalBackend.read_partial_spec_witness :
    ([2, 3] : List Nat).length = 2 ∧
    LocalBackend.read_partial (some [1]) 1 1 =
      .error .readingExactLengthOfFileFailed :=
  ⟨(LocalBackend.read_partial_spec.1 [1, 2, 3, 4] 1 2 [2, 3] (by decide)).1,
   LocalBackend.read_partial_spec.2.1 [1] 1 1 (by decide)⟩

/-! ## C10 -/

/-- The `StringList::contains` agrees with list membership. -/
theorem StringList.contains_iff (l : StringList) (s : String) :
    l.contains s = true ↔ s ∈ l := by
  unfold StringList.contains
  rw [List.any_eq_true]
  constructor
  · rintro ⟨x, hx, he⟩
    rw [beq_iff_eq] at he
    exact he ▸ hx
  · intro hs
    exact ⟨s, hs, beq_self_eq_true s⟩

/-- The `add` keeps a duplicate-free list duplicate-free. -/
theorem StringList.add_nodup (l : StringList) (s : String) (h : l.Nodup) :
    (l.add s).Nodup := by
  unfold StringList.add
  split_ifs with hc
  · exact h
  · rw [List.nodup_append]
    refine ⟨h, List.nodup_singleton s, ?_⟩
    intro a ha hs
    rw [List.mem_singleton] at hs
    subst hs
    exact absurd ((StringList.contains_iff l a).mpr ha) (by simp_all)

/-- The `add_list` keeps a duplicate-free list duplicate-free. -/
theorem StringList.add_list_nodup (sl : StringList) :
    ∀ l : StringList, l.Nodup → (l.add_list sl).Nodup := by
  induction sl with
  | nil => intro l h; exact h
  | cons s rest ih =>
    intro l h
    exact ih (l.add s) (StringList.add_nodup l s h)

/-- C10: `add` is idempotent on contained strings, always establishes
containment, and — together with `add_list` and `add_all` — never
introduces duplicates into a duplicate-free list. -/
theorem StringList.add_spec :
    (∀ (l : StringList) (s : String), l.contains s = true → l.add s = l) ∧
    (∀ (l : StringList) (s : String), (l.add s).contains s = true) ∧
    (∀ (l : StringList) (s : String), l.Nodup → (l.add s).Nodup) ∧
    (∀ (l : StringList) (sl : StringList), l.Nodup → (l.add_list sl).Nodup) ∧
    (∀ (l : StringList) (sls : List StringList), l.Nodup → (l.add_all sls).Nodup) := by
  refine ⟨?_, ?_, StringList.add_nodup, fun l sl => StringList.add_list_nodup sl l, ?_⟩
  · intro l s h
    unfold StringList.add
    rw [if_pos h]
  · intro l s
    unfold StringList.add
    split_ifs with hc
    · exact hc
    · rw [StringList.contains_iff]
      exact List.mem_append_right l (List.mem_singleton.mpr rfl)
  · intro l sls
    induction sls generalizing l with
    | nil => intro h; exact h
    | cons sl rest ih =>
      intro h
      exact ih (l.add_list sl) (StringList.add_list_nodup sl l h)

/-- Witness for C10 on concrete tag lists. -/
theorem StringList.add_spec_witness :
    StringList.add ["a", "b"] "a" = ["a", "b"] ∧
    StringList.contains (StringList.add ["a"] "b") "b" = true ∧
    (StringList.add_all ["a"] [["a", "b"], ["b", "c"]]).Nodup :=
  ⟨StringList.add_spec.1 ["a", "b"] "a" (by decide),
   StringList.add_spec.2.1 ["a"] "b",
   StringList.add_spec.2.2.2.2 ["a"] [["a", "b"], ["b", "c"]] (by simp)⟩

/-! ## C1 -/

@[simp]
theorem FsState.set_same (st : FsState) (p : FsPath) (v : Option (List Nat)) :
    st.set p v p = v := if_pos rfl

/-- C1 counterexample: starting from an empty filesystem, writing the
one-byte buffer `[1]` as the config file is not crash-atomic — after the
first two operations (open-create and `set_len`) the target path holds
the partially written file `[0]`, which is neither the original state
(absent) nor the new contents `[1]`. -/
theorem LocalBackend.write_bytes_not_crash_atomic :
    ¬ crashAtomic (fun _ => none)
        (LocalBackend.write_bytes_trace [] .config [] [1])
        (LocalBackend.path [] .config []) [1] := by
  intro h
  rcases h 2 with h2 | h2 <;> revert h2 <;> decide

/-- C1 amended: `write_bytes` creates or replaces the stored file in
place — its trace opens the target path directly (no rename at all),
leaves the target holding exactly the written buffer, and ends with
`sync_all` (fsync) on the target before returning. -/
theorem LocalBackend.write_bytes_in_place_fsync :
    ∀ (root : FsPath) (tpe : FileType) (id : Id) (buf : List Nat) (st : FsState),
      (∀ src dst : FsPath,
        FsOp.rename src dst ∉ LocalBackend.write_bytes_trace root tpe id buf) ∧
      FsOp.applyAll st (LocalBackend.write_bytes_trace root tpe id buf)
        (LocalBackend.path root tpe id) = some buf ∧
      (LocalBackend.write_bytes_trace root tpe id buf).getLast? =
        some (.syncAll (LocalBackend.path root tpe id)) := by
  intro root tpe id buf st
  refine ⟨?_, ?_, rfl⟩
  · intro src dst
    simp [LocalBackend.write_bytes_trace]
  · unfold LocalBackend.write_bytes_trace
    generalize LocalBackend.path root tpe id = p
    unfold FsOp.applyAll
    simp only [List.foldl_cons, List.foldl_nil]
    cases h0 : st p with
    | none =>
      simp [FsOp.apply, h0, FsState.set_same, List.drop_replicate]
    | some old =>
      simp only [FsOp.apply, h0, FsState.set_same]
      have hlen : (old.take buf.length ++
          List.replicate (buf.length - old.length) 0).length ≤ buf.length := by
        simp only [List.length_append, List.length_take, List.length_replicate]
        omega
      rw [List.drop_eq_nil_of_le hlen, List.append_nil]

/-- Witness for the amended C1 at a concrete write on an empty
filesystem. -/
theorem LocalBackend.write_bytes_in_place_fsync_witness :
    FsOp.applyAll (fun _ => none)
        (LocalBackend.write_bytes_trace [] .config [] [1])
        (LocalBackend.path [] .config []) = some [1] :=
  (LocalBackend.write_bytes_in_place_fsync [] .config [] [1] (fun _ => none)).2.1

/-! ## C2 -/

/-- C2 counterexample: an entry whose parent lookup errors is dropped by
the `filter_map` stage — with a parent lookup that always fails, the
single entry `0` produces an empty downstream list, so the entry does not
reach the rest of the pipeline. -/
theorem Archiver.parentStage_drops_errored_entry :
    Archiver.parentStage (fun _ : Nat => (Except.error () : Except Unit Nat)) [0] = [] ∧
    0 ∉ Archiver.parentStage (fun _ : Nat => (Except.error () : Except Unit Nat)) [0] :=
  ⟨rfl, by decide⟩

/-- C2 amended: when the parent lookup for an entry returns an error, the
entry is logged and dropped — the stage's output is exactly the output for
the remaining entries — and an entry whose lookup succeeds is passed
downstream unchanged. -/
theorem Archiver.parentStage_error_drops :
    (∀ (α β ε : Type) (process : α → Except ε β) (xs ys : List α) (x : α) (e : ε),
      process x = .error e →
      Archiver.parentStage process (xs ++ x :: ys) =
        Archiver.parentStage process xs ++ Archiver.parentStage process ys) ∧
    (∀ (α β ε : Type) (process : α → Except ε β) (x : α) (r : β) (l : List α),
      process x = .ok r →
      Archiver.parentStage process (x :: l) = r :: Archiver.parentStage process l) := by
  constructor
  · intro α β ε process xs ys x e h
    simp [Archiver.parentStage, List.filterMap_append, List.filterMap_cons, h]
  · intro α β ε process x r l h
    simp [Archiver.parentStage, List.filterMap_cons, h]

/-- Witness for the amended C2: a lookup failing exactly on the entry `0`
drops it and keeps the entries `1` and `2`; an entry with a successful
lookup passes through. -/
theorem Archiver.parentStage_error_drops_witness :
    Archiver.parentStage
        (fun n : Nat => if n = 0 then (Except.error () : Except Unit Nat) else .ok n)
        ([1] ++ 0 :: [2]) =
      Archiver.parentStage
          (fun n : Nat => if n = 0 then (Except.error () : Except Unit Nat) else .ok n)
          [1] ++
        Archiver.parentStage
          (fun n : Nat => if n = 0 then (Except.error () : Except Unit Nat) else .ok n)
          [2] ∧
    Archiver.parentStage
        (fun n : Nat => if n = 0 then (Except.error () : Except Unit Nat) else .ok n)
        (5 :: []) =
      5 :: Archiver.parentStage
          (fun n : Nat => if n = 0 then (Except.error () : Except Unit Nat) else .ok n)
          [] :=
  ⟨Archiver.parentStage_error_drops.1 Nat Nat Unit _ [1] [2] 0 () rfl,
   Archiver.parentStage_error_drops.2 Nat Nat Unit _ 5 5 [] rfl⟩

end Rustic
